import Mathlib

/-!
Verification development for the cartoonize pipeline (src/finalcode.py).

The script loads an image, optionally downscales it, applies three bilateral
passes, quantizes colors with seeded k-means, extracts an adaptive-threshold
edge mask, composites the two with a masked bitwise AND, and returns the
(possibly resized) original and the cartoon, both converted from BGR to RGB.

The pipeline's own control flow (load/resize order, the error raised for an
undecodable image, the RNG seeding, reconstruction, compositing and channel
reversal) is translated directly from the source.  The OpenCV primitives the
source calls (bilateralFilter, kmeans, medianBlur, adaptiveThreshold, resize)
are not part of this repository; their definitions below are modelled from the
specification's descriptions of those stages, as noted in their doc comments.
Machine pixels are naturals; the float32 values inside k-means and the filters
are modelled exactly by Frac, a normalized fraction of integers; the
transcendental Gaussian kernels of the bilateral filter are abstracted as
Frac-valued kernel parameters.
-/

namespace Cartoonize

/-- An exact fraction of integers, the model of the float values the pipeline
computes with.  All constructors below go through Frac.mk', so every value
arising from arithmetic is normalized (positive denominator, reduced), making
structural equality coincide with value equality. -/
structure Frac where
  num : Int
  den : Int
  deriving DecidableEq, Repr

/-- Normalized constructor: sign moved to the numerator, gcd cancelled.  A
zero denominator (which no meaningful computation below produces) collapses
to 0. -/
def Frac.mk' (n d : Int) : Frac :=
  if d = 0 then ⟨0, 1⟩
  else
    let s : Int := if d < 0 then -1 else 1
    let g : Int := (Int.gcd n d : Nat)
    ⟨s * n / g, s * d / g⟩

instance : OfNat Frac n := ⟨⟨(n : Nat), 1⟩⟩

/-- Embed a natural number. -/
def Frac.ofNat (n : Nat) : Frac := ⟨(n : Nat), 1⟩

instance : Add Frac := ⟨fun a b => Frac.mk' (a.num * b.den + b.num * a.den) (a.den * b.den)⟩

instance : Sub Frac := ⟨fun a b => Frac.mk' (a.num * b.den - b.num * a.den) (a.den * b.den)⟩

instance : Mul Frac := ⟨fun a b => Frac.mk' (a.num * b.num) (a.den * b.den)⟩

instance : Div Frac := ⟨fun a b => Frac.mk' (a.num * b.den) (a.den * b.num)⟩

instance : LT Frac := ⟨fun a b => a.num * b.den < b.num * a.den⟩

instance (a b : Frac) : Decidable (a < b) := Int.decLt _ _

/-- Minimum of two fractions. -/
def Frac.minF (a b : Frac) : Frac := if a < b then a else b

/-- Maximum of two fractions. -/
def Frac.maxF (a b : Frac) : Frac := if a < b then b else a

/-- Floor of a fraction (denominators are kept positive). -/
def Frac.floor (a : Frac) : Int := Int.fdiv a.num a.den

/-- Round to the nearest natural (half away from zero): floor(a + 1/2). -/
def Frac.rnd (a : Frac) : Nat := (Int.fdiv (2 * a.num + a.den) (2 * a.den)).toNat

/-- Sum of a list of fractions. -/
def fsum (l : List Frac) : Frac := l.foldl (· + ·) 0

/-- A color pixel: (blue, green, red) 8-bit samples, as OpenCV stores them. -/
abbrev Px := Nat × Nat × Nat

/-- A color image: a list of rows of BGR pixels. -/
abbrev Im := List (List Px)

/-- A grayscale image: a list of rows of luminance samples. -/
abbrev GIm := List (List Nat)

/-- Height of a color image (number of rows). -/
def imH (im : Im) : Nat := im.length

/-- Width of a color image (length of its first row). -/
def imW (im : Im) : Nat := (im.headD []).length

/-- Row-length profile of a color image; two images have identical H×W
structure exactly when their profiles agree. -/
def shape (im : Im) : List Nat := im.map List.length

/-- Row-length profile of a grayscale image. -/
def gshape (g : GIm) : List Nat := g.map List.length

/-- Pixel at row r, column c (black outside the grid). -/
def pxAt (im : Im) (r c : Nat) : Px := (im.getD r []).getD c (0, 0, 0)

/-- Grayscale sample at row r, column c (zero outside the grid). -/
def gAt (g : GIm) (r c : Nat) : Nat := (g.getD r []).getD c 0

/-- Bitwise AND of a pixel with itself, channelwise — what
cv2.bitwise_and(quantized, quantized, ...) computes where the mask is set. -/
def pxLand (p : Px) : Px := (Nat.land p.1 p.1, Nat.land p.2.1 p.2.1, Nat.land p.2.2 p.2.2)

/-- Line 48: cv2.bitwise_and(quantized, quantized, mask=edges).  The freshly
allocated destination starts out all zero; wherever the mask sample is nonzero
the destination receives src1 AND src2 (here the quantized pixel ANDed with
itself), and wherever the mask sample is zero the destination stays black. -/
def bitwiseAndMasked (q : Im) (mask : GIm) : Im :=
  (q.zip mask).map fun rm =>
    (rm.1.zip rm.2).map fun pm => if pm.2 = 0 then (0, 0, 0) else pxLand pm.1

/-- Stages of the pipeline in the order the source executes them; a run's
trace records the stages that actually completed. -/
inductive Stage
  | load | resize | smoothPass | quantize | maskExtract | combine | convert
  deriving DecidableEq

/-- The two failure conditions of cartoonize: cv2.imread returning None makes
line 9 raise FileNotFoundError, and cv2.kmeans rejects an unusable K by
raising cv2.error from its argument assertions. -/
inductive CErr
  | imageNotFound | kmeansArg
  deriving DecidableEq

instance {ε α : Type _} [DecidableEq ε] [DecidableEq α] : DecidableEq (Except ε α) := fun a b =>
  match a, b with
  | Except.error e, Except.error f =>
    match decEq e f with
    | isTrue h => isTrue (congrArg Except.error h)
    | isFalse h => isFalse fun c => h (Except.error.inj c)
  | Except.ok x, Except.ok y =>
    match decEq x y with
    | isTrue h => isTrue (congrArg Except.ok h)
    | isFalse h => isFalse fun c => h (Except.ok.inj c)
  | Except.error _, Except.ok _ => isFalse fun c => Except.noConfusion c
  | Except.ok _, Except.error _ => isFalse fun c => Except.noConfusion c

/-- Modelled from the spec: the grayscale conversion of cv2.cvtColor(·,
COLOR_BGR2GRAY) — "convert the original color image to single-channel
luminance via a standard weighted sum of channels" (the standard BT.601
weights 0.299, 0.587, 0.114, rounded to the nearest integer sample). -/
def toGray (im : Im) : GIm :=
  im.map fun row => row.map fun p => (114 * p.1 + 587 * p.2.1 + 299 * p.2.2 + 500) / 1000

/-- Clamp an integer coordinate into [0, n-1]: the replicate border policy
("clamp ... out-of-bounds neighbor coordinates; never read undefined
memory"). -/
def clampIdx (n : Nat) (i : Int) : Nat := (min (max i 0) ((n : Int) - 1)).toNat

/-- Grayscale sample with clamped (border-replicated) coordinates. -/
def gAtClamp (g : GIm) (r c : Int) : Nat :=
  let row := g.getD (clampIdx g.length r) []
  row.getD (clampIdx row.length c) 0

/-- Color pixel with clamped (border-replicated) coordinates. -/
def pxAtClamp (im : Im) (r c : Int) : Px :=
  let row := im.getD (clampIdx im.length r) []
  row.getD (clampIdx row.length c) (0, 0, 0)

/-- Samples of the square neighborhood of side 2*rad+1 centred at (r, c),
border-replicated. -/
def gWindow (g : GIm) (r c : Nat) (rad : Nat) : List Nat :=
  (List.range (2 * rad + 1)).flatMap fun i =>
    (List.range (2 * rad + 1)).map fun j =>
      gAtClamp g ((r : Int) + i - rad) ((c : Int) + j - rad)

/-- Middle element of the sorted order (the lists fed to it here have odd
length, so this is the textbook median). -/
def medianL (l : List Nat) : Nat := (List.insertionSort (· ≤ ·) l).getD (l.length / 2) 0

/-- Modelled from the spec: cv2.medianBlur (line 39, kernel 7, so rad = 3) —
"apply a median filter (replace each pixel with the median of its square
neighborhood of side blur_kernel_size)". -/
def medianBlur (g : GIm) (rad : Nat) : GIm :=
  g.enum.map fun rrow => rrow.2.enum.map fun cv => medianL (gWindow g rrow.1 cv.1 rad)

/-- Modelled from the spec: cv2.adaptiveThreshold(·, maxVal,
ADAPTIVE_THRESH_MEAN_C, THRESH_BINARY, blockSize, biasC) (lines 40-44) —
"for every pixel, compute the mean luminance of its local neighborhood (side
block_size), subtract bias_C, and classify the pixel as line (minimal sample
value 0) if its own luminance is below that local threshold, else background
(maximal sample value, maxVal)".  rad = blockSize / 2. -/
def adaptiveThreshMean (g : GIm) (maxVal : Nat) (rad : Nat) (biasC : Frac) : GIm :=
  g.enum.map fun rrow => rrow.2.enum.map fun cv =>
    let nb := gWindow g rrow.1 cv.1 rad
    if Frac.ofNat cv.2 < Frac.ofNat nb.sum / Frac.ofNat nb.length - biasC then 0 else maxVal

/-- Lines 37-44, the whole edge-mask branch: grayscale conversion, median
blur with kernel 7 (rad 3), adaptive mean threshold with maxValue 255,
blockSize 15 (rad 7) and C = 5, all on the (possibly resized) original. -/
def extractMask (im : Im) : GIm :=
  adaptiveThreshMean (medianBlur (toGray im) 3) 255 7 5

/-- Total color distance between two BGR pixels (sum of absolute channel
differences) — the joint-color-distance option the spec allows for the
bilateral filter's range kernel. -/
def colorDist (p q : Px) : Nat :=
  ((p.1 : Int) - q.1).natAbs + ((p.2.1 : Int) - q.2.1).natAbs + ((p.2.2 : Int) - q.2.2).natAbs

/-- Modelled from the spec: one pass of cv2.bilateralFilter(·, 9, 75, 75)
(line 21, diameter 9 so window radius 4) — "for each pixel, the output sample
is a weighted average of all neighbor samples within a square window, where
each neighbor's weight is the product of (a) a Gaussian function of spatial
distance and (b) a Gaussian function of color-intensity difference between
neighbor and center".  The kernels ws (of the squared spatial offset) and wc
(of the total color difference) stand for those Gaussians
exp(-d^2 / (2 * 75^2)); they are abstract Frac-valued parameters because the
exponential is transcendental.  Borders are clamped, channels averaged
jointly, the result rounded to the nearest integer sample; should the
abstract kernels make a window weightless, the center sample is kept. -/
def bilateralOnce (ws wc : Nat → Frac) (rad : Nat) (im : Im) : Im :=
  im.enum.map fun rrow => rrow.2.enum.map fun cp =>
    let ctr := cp.2
    let offs := (List.range (2 * rad + 1)).flatMap fun i =>
      (List.range (2 * rad + 1)).map fun j => (((i : Int) - rad), ((j : Int) - rad))
    let wps := offs.map fun d =>
      let p := pxAtClamp im ((rrow.1 : Int) + d.1) ((cp.1 : Int) + d.2)
      (ws (d.1 * d.1 + d.2 * d.2).toNat * wc (colorDist p ctr), p)
    let den : Frac := fsum (wps.map fun wp => wp.1)
    if den.num = 0 then ctr else
      ((fsum (wps.map fun wp => wp.1 * Frac.ofNat wp.2.1) / den).rnd,
       (fsum (wps.map fun wp => wp.1 * Frac.ofNat wp.2.2.1) / den).rnd,
       (fsum (wps.map fun wp => wp.1 * Frac.ofNat wp.2.2.2) / den).rnd)

/-- Lines 19-21: smoothed = img.copy(), then three sequential bilateral
passes, each operating on the previous pass's output. -/
def smoothStage (ws wc : Nat → Frac) (im : Im) : Im :=
  (List.range 3).foldl (fun acc _ => bilateralOnce ws wc 4 acc) im

/-- A point of color space: a pixel's three samples as exact fractions (the
float32 rows of Z = smoothed.reshape((-1, 3)), line 25). -/
abbrev FPt := Frac × Frac × Frac

/-- Line 25: flatten the image row-major into a list of float color points. -/
def imToPts (im : Im) : List FPt :=
  im.flatten.map fun p => (Frac.ofNat p.1, Frac.ofNat p.2.1, Frac.ofNat p.2.2)

/-- Squared Euclidean distance in color space. -/
def ptDistSq (p q : FPt) : Frac :=
  (p.1 - q.1) * (p.1 - q.1) + (p.2.1 - q.2.1) * (p.2.1 - q.2.1) +
    (p.2.2 - q.2.2) * (p.2.2 - q.2.2)

/-- Modelled from the spec (design note §9): the "explicitly specified,
self-contained seeded pseudo-random generator used only for centroid
seeding" — a standard 31-bit linear congruential step.  cv2.setRNGSeed
(line 31) makes this chain start from random_seed. -/
def lcg (s : Nat) : Nat := (1103515245 * s + 12345) % 2147483648

/-- Scan the remaining centroids keeping the index of the least distance;
a strict comparison keeps the earlier index on ties. -/
def nearestIdxAux (p : FPt) : List FPt → Nat → Frac → Nat → Nat
  | [], _, _, best => best
  | c :: rest, i, bd, best =>
    if ptDistSq p c < bd then nearestIdxAux p rest (i + 1) (ptDistSq p c) i
    else nearestIdxAux p rest (i + 1) bd best

/-- Index of the centroid nearest to p (Euclidean distance, ties broken to
the lower index, the spec's deterministic tie-break). -/
def nearestIdx (cs : List FPt) (p : FPt) : Nat :=
  match cs with
  | [] => 0
  | c :: rest => nearestIdxAux p rest 1 (ptDistSq p c) 0

/-- Squared distance from p to the nearest of the already chosen centroids. -/
def minDistSq (cs : List FPt) (p : FPt) : Frac :=
  match cs with
  | [] => 0
  | c :: rest => rest.foldl (fun m c2 => Frac.minF m (ptDistSq p c2)) (ptDistSq p c)

/-- Index of the first weight at which the running cumulative sum passes the
threshold (the last index when it never does). -/
def pickIdx : List Frac → Frac → Nat
  | [], _ => 0
  | _ :: [], _ => 0
  | w :: r1 :: rest, t => if t < w then 0 else pickIdx (r1 :: rest) (t - w) + 1

/-- Choose the remaining j centroids of the k-means++ seeding: each further
centroid is drawn with probability proportional to its squared distance from
the already chosen ones, by threshold sampling over the cumulative weights;
were every weight zero, a uniform index is drawn instead. -/
def seedGo (pts : List FPt) : Nat → List FPt → Nat → List FPt × Nat
  | 0, acc, s => (acc.reverse, s)
  | j + 1, acc, s =>
    let ds := pts.map (minDistSq acc)
    let tot := fsum ds
    let s2 := lcg s
    let idx := if tot.num = 0 then s2 % pts.length
      else pickIdx ds (Frac.ofNat s2 / Frac.ofNat 2147483648 * tot)
    seedGo pts j (pts.getD idx (0, 0, 0) :: acc) s2

/-- Modelled from the spec: KMEANS_PP_CENTERS seeding — "initialize K
centroids using a seeding strategy that spreads initial centroids apart
proportional to squared distance from already-chosen centroids (probabilistic
farthest-point seeding)"; the first centroid is uniform over the points. -/
def seedInit (pts : List FPt) (k : Nat) (s : Nat) : List FPt × Nat :=
  match k with
  | 0 => ([], s)
  | k2 + 1 =>
    let s1 := lcg s
    seedGo pts k2 [pts.getD (s1 % pts.length) (0, 0, 0)] s1

/-- Assign every point to its nearest centroid. -/
def assignAll (cs : List FPt) (pts : List FPt) : List Nat := pts.map (nearestIdx cs)

/-- The points currently assigned to cluster i. -/
def clusterOf (pts : List FPt) (labels : List Nat) (i : Nat) : List FPt :=
  (pts.zip labels).filterMap fun pl => if pl.2 = i then some pl.1 else none

/-- Componentwise sum of a list of points. -/
def ptSum (l : List FPt) : FPt :=
  l.foldl (fun a p => (a.1 + p.1, a.2.1 + p.2.1, a.2.2 + p.2.2)) (0, 0, 0)

/-- Mean color of a (nonempty) list of points. -/
def ptMean (l : List FPt) : FPt :=
  let s := ptSum l
  (s.1 / Frac.ofNat l.length, s.2.1 / Frac.ofNat l.length, s.2.2 / Frac.ofNat l.length)

/-- The point farthest (by squared distance) from its nearest current
centroid, first on ties — the spec's reseeding target for an emptied
cluster. -/
def farthestPt (cs : List FPt) (pts : List FPt) : FPt :=
  match pts with
  | [] => (0, 0, 0)
  | p :: rest => rest.foldl (fun b q => if minDistSq cs b < minDistSq cs q then q else b) p

/-- One Lloyd update: "recompute each centroid as the mean color of pixels
currently assigned to it"; an emptied cluster is reseeded to the farthest
point (the spec's degenerate-case rule). -/
def updateCenters (cs : List FPt) (pts : List FPt) : List FPt :=
  let labels := assignAll cs pts
  (List.range cs.length).map fun i =>
    match clusterOf pts labels i with
    | [] => farthestPt cs pts
    | l => ptMean l

/-- Largest squared movement between corresponding old and new centroids. -/
def maxShiftSq (a b : List FPt) : Frac :=
  ((a.zip b).map fun p => ptDistSq p.1 p.2).foldl Frac.maxF 0

/-- Lloyd iterations with fuel maxIter: "stop when either centroid movement
falls below convergence_epsilon, or max_iterations is reached" (the criteria
tuple of line 28 sets maxIter = 10, eps = 1.0; movement is compared squared
against eps squared). -/
def lloydGo (pts : List FPt) (eps : Frac) : Nat → List FPt → List FPt
  | 0, cs => cs
  | n + 1, cs =>
    let cs2 := updateCenters cs pts
    if maxShiftSq cs cs2 < eps * eps then cs2 else lloydGo pts eps n cs2

/-- Total within-cluster squared distance, the spec's "compactness". -/
def compactnessOf (cs : List FPt) (pts : List FPt) : Frac :=
  fsum (pts.map fun p => minDistSq cs p)

/-- One full clustering attempt: k-means++ seeding, Lloyd iterations, then
the final assignment and its compactness; also returns the advanced RNG
state so the next attempt seeds independently. -/
def kmeansRun (pts : List FPt) (k maxIter : Nat) (eps : Frac) (s : Nat) :
    (Frac × List Nat × List FPt) × Nat :=
  let is := seedInit pts k s
  let cs := lloydGo pts eps maxIter is.1
  ((compactnessOf cs pts, assignAll cs pts, cs), is.2)

/-- Remaining attempts: "repeat the full run attempts times with independent
seeding; keep the result with lowest total within-cluster squared
distance". -/
def kmAttemptsGo (pts : List FPt) (k maxIter : Nat) (eps : Frac) :
    Nat → (Frac × List Nat × List FPt) → Nat → (Frac × List Nat × List FPt)
  | 0, best, _ => best
  | n + 1, best, s =>
    let r := kmeansRun pts k maxIter eps s
    kmAttemptsGo pts k maxIter eps n (if r.1.1 < best.1 then r.1 else best) r.2

/-- Modelled from the spec: cv2.kmeans(Z, K, None, criteria, attempts,
KMEANS_PP_CENTERS) (line 32) — its argument assertions reject "K < 1" and
"K > pixel count" by raising cv2.error; otherwise the best of the attempts
is returned as (compactness, label, center). -/
def cv2kmeans (pts : List FPt) (k maxIter : Nat) (eps : Frac) (attempts s : Nat) :
    Except CErr (Frac × List Nat × List FPt) :=
  if k = 0 ∨ pts.length < k then Except.error CErr.kmeansArg
  else
    let r0 := kmeansRun pts k maxIter eps s
    Except.ok (kmAttemptsGo pts k maxIter eps (attempts - 1) r0.1 r0.2)

/-- Line 34, center = np.uint8(center): the C-style cast truncates each float
centroid sample toward zero (floor, the samples being non-negative) and wraps
modulo 256. -/
def toU8 (q : Frac) : Nat := q.floor.toNat % 256

/-- The centroid set finalised to 8-bit color triples. -/
def centersU8 (cs : List FPt) : List Px := cs.map fun c => (toU8 c.1, toU8 c.2.1, toU8 c.2.2)

/-- Refill rows of the target's row lengths from a flat pixel list. -/
def reshapeRows : List (List Px) → List Px → Im
  | [], _ => []
  | row :: rest, flat => flat.take row.length :: reshapeRows rest (flat.drop row.length)

/-- Line 35: quantized = center[label.flatten()].reshape(img.shape) — look
every label up in the 8-bit centroid table and reshape row-major to the
(possibly resized) original's H×W. -/
def reconstructIm (target : Im) (labels : List Nat) (centers : List Px) : Im :=
  reshapeRows target (labels.map fun l => centers.getD l (0, 0, 0))

/-- Lines 51-52, cv2.cvtColor(·, COLOR_BGR2RGB): reverse every pixel's
channel order. -/
def bgr2rgb (im : Im) : Im := im.map fun row => row.map fun p => (p.2.2, p.2.1, p.1)

/-- Length of the overlap of the unit source cell [y, y+1) with [a, b). -/
def overlapLen (a b : Frac) (y : Nat) : Frac :=
  Frac.maxF 0 (Frac.minF b (Frac.ofNat y + 1) - Frac.maxF a (Frac.ofNat y))

/-- Modelled from the spec: cv2.resize(·, (newW, newH), INTER_AREA) (line 14)
— the "resize step scales the image down proportionally using area-averaging
interpolation": each output sample is the area-weighted average of the source
samples covered by the output pixel's footprint, rounded to the nearest
integer. -/
def resizeArea (im : Im) (newW newH : Nat) : Im :=
  let ih := im.length
  let iw := (im.headD []).length
  (List.range newH).map fun r =>
    (List.range newW).map fun c =>
      let ra := Frac.ofNat r * Frac.ofNat ih / Frac.ofNat newH
      let rb := (Frac.ofNat r + 1) * Frac.ofNat ih / Frac.ofNat newH
      let ca := Frac.ofNat c * Frac.ofNat iw / Frac.ofNat newW
      let cb := (Frac.ofNat c + 1) * Frac.ofNat iw / Frac.ofNat newW
      let cells := (List.range ih).flatMap fun y => (List.range iw).map fun x =>
        (overlapLen ra rb y * overlapLen ca cb x, pxAt im y x)
      let area := (rb - ra) * (cb - ca)
      if area.num = 0 then (0, 0, 0) else
        ((fsum (cells.map fun wp => wp.1 * Frac.ofNat wp.2.1) / area).rnd,
         (fsum (cells.map fun wp => wp.1 * Frac.ofNat wp.2.2.1) / area).rnd,
         (fsum (cells.map fun wp => wp.1 * Frac.ofNat wp.2.2.2) / area).rnd)

/-- Lines 11-14: when the longer dimension exceeds max_dim, downscale with
INTER_AREA to (int(w * scale), int(h * scale)) for scale = max_dim /
max(h, w) — in exact arithmetic the floor divisions below; otherwise the
image passes through untouched. -/
def loadResize (im : Im) (maxDim : Nat) : Im :=
  let h := imH im
  let w := imW im
  if max h w > maxDim then resizeArea im (w * maxDim / max h w) (h * maxDim / max h w)
  else im

/-- Lines 28-32, the quantization stage.  rngAmbient is cv2's global RNG
state as it stood when cartoonize was entered; cv2.setRNGSeed(random_seed)
(line 31) replaces that state with the seed immediately before cv2.kmeans, so
the clustering reads only the chain started from randomSeed and the ambient
state is discarded. -/
def kmeansStage (rngAmbient : Nat) (smoothed : Im) (K attempts randomSeed : Nat) :
    Except CErr (Frac × List Nat × List FPt) :=
  cv2kmeans (imToPts smoothed) K 10 1 attempts randomSeed

/-- Lines 5-54, def cartoonize(image_path, K=5, max_dim=800, attempts=10,
random_seed=42).  The external loader's outcome is the decoded argument
(cv2.imread returning None for a missing or undecodable file); rngAmbient is
cv2's global RNG state at entry.  Returns the trace of completed stages
together with either the raised error or the pair (original_rgb,
cartoon_rgb). -/
def cartoonize (ws wc : Nat → Frac) (decoded : Option Im)
    (K maxDim attempts randomSeed rngAmbient : Nat) :
    List Stage × Except CErr (Im × Im) :=
  match decoded with
  | none => ([], Except.error CErr.imageNotFound)
  | some img0 =>
    let img := loadResize img0 maxDim
    let t0 := if max (imH img0) (imW img0) > maxDim then [Stage.load, Stage.resize]
      else [Stage.load]
    let t1 := t0 ++ [Stage.smoothPass, Stage.smoothPass, Stage.smoothPass]
    let smoothed := smoothStage ws wc img
    match kmeansStage rngAmbient smoothed K attempts randomSeed with
    | Except.error e => (t1, Except.error e)
    | Except.ok res =>
      let quantized := reconstructIm img res.2.1 (centersU8 res.2.2)
      let mask := extractMask img
      let cartoonBgr := bitwiseAndMasked quantized mask
      (t1 ++ [Stage.quantize, Stage.maskExtract, Stage.combine, Stage.convert],
       Except.ok (bgr2rgb img, bgr2rgb cartoonBgr))

/-- Number of distinct color values occurring in an image. -/
def distinctColors (im : Im) : Nat := im.flatten.toFinset.card

/-- A 1×1 test image used to instantiate theorems concretely. -/
def onePx : Im := [[(9, 9, 9)]]

/-- A 2×4 test image used to instantiate the resize branch concretely. -/
def wideIm : Im :=
  [[(0, 0, 0), (10, 10, 10), (20, 20, 20), (30, 30, 30)],
   [(40, 40, 40), (50, 50, 50), (60, 60, 60), (70, 70, 70)]]

/-- The spec's 4×4 synthetic scenario image: left half (10,10,10), right half
(250,250,250). -/
def stepIm : Im :=
  [[(10, 10, 10), (10, 10, 10), (250, 250, 250), (250, 250, 250)],
   [(10, 10, 10), (10, 10, 10), (250, 250, 250), (250, 250, 250)],
   [(10, 10, 10), (10, 10, 10), (250, 250, 250), (250, 250, 250)],
   [(10, 10, 10), (10, 10, 10), (250, 250, 250), (250, 250, 250)]]

/-- A constant kernel: a stand-in instantiation for the abstract bilateral
Gaussians when a theorem is applied to concrete data. -/
def unitKernel : Nat → Frac := fun _ => 1

/-! ## Helper lemmas -/

theorem nat_land_self (n : Nat) : Nat.land n n = n := by
  show n &&& n = n
  apply Nat.eq_of_testBit_eq
  intro i
  rw [Nat.testBit_land]
  exact Bool.and_self _

theorem pxLand_self (p : Px) : pxLand p = p := by
  obtain ⟨b, g, r⟩ := p
  simp [pxLand, nat_land_self]

theorem bam_row_getD (qr : List Px) (mr : List Nat) (c : Nat) (h : qr.length = mr.length) :
    ((qr.zip mr).map fun pm => if pm.2 = 0 then ((0, 0, 0) : Px) else pxLand pm.1).getD c
        (0, 0, 0) =
      if mr.getD c 0 = 0 then (0, 0, 0) else qr.getD c (0, 0, 0) := by
  induction qr generalizing mr c with
  | nil =>
    cases mr with
    | nil => simp
    | cons m ms => simp at h
  | cons p ps ih =>
    cases mr with
    | nil => simp at h
    | cons m ms =>
      cases c with
      | zero => simp [pxLand_self]
      | succ c2 =>
        simpa using ih ms c2 (by simpa using h)

theorem bam_getD (q : Im) (m : GIm) (h : shape q = gshape m) (r c : Nat) :
    pxAt (bitwiseAndMasked q m) r c =
      if gAt m r c = 0 then (0, 0, 0) else pxAt q r c := by
  induction q generalizing m r with
  | nil =>
    cases m with
    | nil => simp [bitwiseAndMasked, pxAt, gAt]
    | cons mrow mrows => simp [shape, gshape] at h
  | cons row rows ih =>
    cases m with
    | nil => simp [shape, gshape] at h
    | cons mrow mrows =>
      simp only [shape, gshape, List.map_cons, List.cons.injEq] at h
      cases r with
      | zero =>
        simpa [bitwiseAndMasked, pxAt, gAt] using bam_row_getD row mrow c h.1
      | succ r2 =>
        simpa [bitwiseAndMasked, pxAt, gAt] using ih mrows h.2 r2

/-! ## Claim theorems -/

/-- C1: for every quantized image and mask of identical H×W, the compositor
output at every pixel where the mask marks "line" (sample 0) is zero in all
three channels, and at every pixel where the mask marks "background" (sample
255) it equals the quantized image's pixel exactly. -/
theorem compositor_blacks_lines_and_passes_background (q : Im) (m : GIm)
    (h : shape q = gshape m) (r c : Nat) :
    (gAt m r c = 0 → pxAt (bitwiseAndMasked q m) r c = (0, 0, 0)) ∧
    (gAt m r c = 255 → pxAt (bitwiseAndMasked q m) r c = pxAt q r c) := by
  constructor
  · intro h0
    rw [bam_getD q m h r c, if_pos h0]
  · intro h255
    rw [bam_getD q m h r c, if_neg (by rw [h255]; decide)]

theorem compositor_blacks_lines_and_passes_background_witness :
    shape [[(7, 8, 9), (1, 2, 3)]] = gshape [[0, 255]] ∧
    pxAt (bitwiseAndMasked [[(7, 8, 9), (1, 2, 3)]] [[0, 255]]) 0 0 = (0, 0, 0) ∧
    pxAt (bitwiseAndMasked [[(7, 8, 9), (1, 2, 3)]] [[0, 255]]) 0 1 =
      pxAt [[(7, 8, 9), (1, 2, 3)]] 0 1 :=
  ⟨by decide,
   (compositor_blacks_lines_and_passes_background _ _ (by decide) 0 0).1 (by decide),
   (compositor_blacks_lines_and_passes_background _ _ (by decide) 0 1).2 (by decide)⟩

/-- C2: cartoonize is deterministic — its result does not depend on the
ambient RNG state cv2 happened to hold at entry, because line 31 reseeds the
generator from random_seed before k-means; in particular two runs with the
same decoded image, K, max_dim, attempts and seed return identical traces and
images, and the quantization stage returns identical compactness, labels and
centroid sets. -/
theorem cartoonize_deterministic (ws wc : Nat → Frac) (decoded : Option Im)
    (K maxDim attempts seed rng1 rng2 : Nat) :
    cartoonize ws wc decoded K maxDim attempts seed rng1 =
      cartoonize ws wc decoded K maxDim attempts seed rng2 ∧
    ∀ sm, kmeansStage rng1 sm K attempts seed = kmeansStage rng2 sm K attempts seed := by
  refine ⟨?_, fun _ => rfl⟩
  cases decoded with
  | none => rfl
  | some img0 => rfl

/-- C3 counterexample: the claim says invalid parameters (K < 1) are rejected
at pipeline construction, before processing any pixels.  The code has no
construction-time validation: with K = 0 the error surfaces only when
cv2.kmeans runs (line 32), and by then the three bilateral smoothing passes
(lines 20-21) have already processed the image's pixels — the completed-stage
trace of this concrete failing run contains the smoothing stage. -/
theorem invalid_k_error_after_smoothing_cex :
    (cartoonize unitKernel unitKernel (some onePx) 0 800 10 42 0).2 =
      Except.error CErr.kmeansArg ∧
    Stage.smoothPass ∈ (cartoonize unitKernel unitKernel (some onePx) 0 800 10 42 0).1 := by
  constructor
  · decide
  · decide

/-- C3 amended: an invalid cluster count (K < 1, i.e. K = 0) is rejected by
the k-means stage when it runs — not at construction — so the call fails with
the k-means argument error only after the smoothing stage has already
processed pixels (the trace contains the smoothing passes); the remaining
configuration named by the claim (block size, filter radii and sigmas) is
hard-coded to valid constants in the source and cannot be invalid. -/
theorem invalid_k_rejected_at_kmeans_stage (ws wc : Nat → Frac) (img0 : Im)
    (maxDim attempts seed rng : Nat) :
    (cartoonize ws wc (some img0) 0 maxDim attempts seed rng).2 =
      Except.error CErr.kmeansArg ∧
    Stage.smoothPass ∈ (cartoonize ws wc (some img0) 0 maxDim attempts seed rng).1 := by
  constructor
  · simp [cartoonize, kmeansStage, cv2kmeans]
  · simp [cartoonize, kmeansStage, cv2kmeans, List.mem_append]

/-- C5: every sample of the extracted edge mask is exactly one of the two
sentinel values — the maximal sample 255 (background) or the minimal sample 0
(line); no intermediate value ever occurs. -/
theorem mask_samples_binary (im : Im) (v : Nat) (hv : v ∈ (extractMask im).flatten) :
    v = 0 ∨ v = 255 := by
  unfold extractMask adaptiveThreshMean at hv
  rw [List.mem_flatten] at hv
  obtain ⟨row, hrow, hvrow⟩ := hv
  rw [List.mem_map] at hrow
  obtain ⟨rr, _, rfl⟩ := hrow
  rw [List.mem_map] at hvrow
  obtain ⟨cv, _, rfl⟩ := hvrow
  dsimp only
  split
  · exact Or.inl rfl
  · exact Or.inr rfl

set_option maxRecDepth 100000 in
theorem mask_samples_binary_witness :
    255 ∈ (extractMask [[(10, 10, 10)]]).flatten ∧ (255 = 0 ∨ 255 = 255) :=
  ⟨by decide, mask_samples_binary [[(10, 10, 10)]] 255 (by decide)⟩

/-- C7: for a source whose image is missing or undecodable (cv2.imread
returned None), the call fails before any pipeline stage runs — the trace of
completed stages is empty — surfacing the distinct named FileNotFoundError
condition, and no partial result accompanies the error. -/
theorem missing_image_fails_fast (ws wc : Nat → Frac) (K maxDim attempts seed rng : Nat) :
    cartoonize ws wc none K maxDim attempts seed rng =
      ([], Except.error CErr.imageNotFound) ∧
    CErr.imageNotFound ≠ CErr.kmeansArg :=
  ⟨rfl, by decide⟩

theorem nearestIdxAux_lt (p : FPt) (l : List FPt) : ∀ (i : Nat) (bd : Frac) (best : Nat),
    best < i → nearestIdxAux p l i bd best < i + l.length := by
  induction l with
  | nil =>
    intro i bd best h
    simpa [nearestIdxAux] using h
  | cons c rest ih =>
    intro i bd best h
    rw [nearestIdxAux]
    split
    · have h2 := ih (i + 1) (ptDistSq p c) i (Nat.lt_succ_self i)
      simp only [List.length_cons]
      omega
    · have h2 := ih (i + 1) bd best (h.trans (Nat.lt_succ_self i))
      simp only [List.length_cons]
      omega

theorem nearestIdx_lt (cs : List FPt) (p : FPt) (h : cs ≠ []) :
    nearestIdx cs p < cs.length := by
  match cs with
  | [] => exact absurd rfl h
  | c :: rest =>
    have h2 := nearestIdxAux_lt p rest 1 (ptDistSq p c) 0 Nat.one_pos
    simp only [nearestIdx, List.length_cons]
    omega

theorem seedGo_length (pts : List FPt) : ∀ (j : Nat) (acc : List FPt) (s : Nat),
    ((seedGo pts j acc s).1).length = j + acc.length := by
  intro j
  induction j with
  | zero => intro acc s; simp [seedGo]
  | succ j2 ih =>
    intro acc s
    rw [seedGo, ih]
    simp only [List.length_cons]
    omega

theorem seedInit_length (pts : List FPt) (k s : Nat) (hk : 1 ≤ k) :
    ((seedInit pts k s).1).length = k := by
  match k, hk with
  | k2 + 1, _ =>
    rw [seedInit, seedGo_length]
    rfl

theorem updateCenters_length (cs pts : List FPt) :
    (updateCenters cs pts).length = cs.length := by
  simp [updateCenters]

theorem lloydGo_length (pts : List FPt) (eps : Frac) :
    ∀ (n : Nat) (cs : List FPt), (lloydGo pts eps n cs).length = cs.length := by
  intro n
  induction n with
  | zero => intro cs; rfl
  | succ n2 ih =>
    intro cs
    rw [lloydGo]
    split
    · exact updateCenters_length _ _
    · rw [ih]
      exact updateCenters_length _ _

theorem kmeansRun_inv (pts : List FPt) (k maxIter : Nat) (eps : Frac) (s : Nat)
    (hk : 1 ≤ k) :
    ((kmeansRun pts k maxIter eps s).1.2.2).length = k ∧
    (kmeansRun pts k maxIter eps s).1.2.1 =
      assignAll (kmeansRun pts k maxIter eps s).1.2.2 pts := by
  constructor
  · show (lloydGo pts eps maxIter (seedInit pts k s).1).length = k
    rw [lloydGo_length, seedInit_length pts k s hk]
  · rfl

theorem kmAttemptsGo_inv (pts : List FPt) (k maxIter : Nat) (eps : Frac) (hk : 1 ≤ k) :
    ∀ (n : Nat) (best : Frac × List Nat × List FPt) (s : Nat),
      best.2.2.length = k → best.2.1 = assignAll best.2.2 pts →
      (kmAttemptsGo pts k maxIter eps n best s).2.2.length = k ∧
      (kmAttemptsGo pts k maxIter eps n best s).2.1 =
        assignAll (kmAttemptsGo pts k maxIter eps n best s).2.2 pts := by
  intro n
  induction n with
  | zero =>
    intro best s h1 h2
    exact ⟨h1, h2⟩
  | succ n2 ih =>
    intro best s h1 h2
    rw [kmAttemptsGo]
    have hr := kmeansRun_inv pts k maxIter eps s hk
    refine ih _ _ ?_ ?_
    · split
      · exact hr.1
      · exact h1
    · split
      · exact hr.2
      · exact h2

theorem cv2kmeans_ok_inv (pts : List FPt) (k maxIter : Nat) (eps : Frac) (a s : Nat)
    (res : Frac × List Nat × List FPt)
    (h : cv2kmeans pts k maxIter eps a s = Except.ok res) :
    1 ≤ k ∧ k ≤ pts.length ∧ res.2.2.length = k ∧ res.2.1 = assignAll res.2.2 pts := by
  unfold cv2kmeans at h
  split at h
  · exact absurd h (by simp)
  · rename_i hcond
    push_neg at hcond
    have hk : 1 ≤ k := Nat.one_le_iff_ne_zero.2 hcond.1
    injection h with h2
    subst h2
    have hr := kmeansRun_inv pts k maxIter eps s hk
    have hinv := kmAttemptsGo_inv pts k maxIter eps hk (a - 1)
      (kmeansRun pts k maxIter eps s).1 (kmeansRun pts k maxIter eps s).2 hr.1 hr.2
    exact ⟨hk, hcond.2, hinv.1, hinv.2⟩

theorem reshapeRows_flatten_subset : ∀ (rows : List (List Px)) (flat : List Px),
    (reshapeRows rows flat).flatten ⊆ flat := by
  intro rows
  induction rows with
  | nil =>
    intro flat x hx
    simp [reshapeRows] at hx
  | cons row rest ih =>
    intro flat x hx
    rw [reshapeRows, List.flatten_cons] at hx
    rcases List.mem_append.mp hx with h1 | h2
    · exact List.take_subset _ _ h1
    · exact List.drop_subset _ _ (ih _ h2)

theorem reconstruct_distinct_le (target : Im) (labels : List Nat) (centers : List Px)
    (hl : ∀ l ∈ labels, l < centers.length) :
    distinctColors (reconstructIm target labels centers) ≤ centers.length := by
  unfold distinctColors reconstructIm
  have hsub : (reshapeRows target (labels.map fun l => centers.getD l (0, 0, 0))).flatten
      ⊆ centers := by
    intro x hx
    have hx2 := reshapeRows_flatten_subset _ _ hx
    rw [List.mem_map] at hx2
    obtain ⟨l, hl2, rfl⟩ := hx2
    rw [List.getD_eq_getElem _ _ (hl l hl2)]
    exact List.getElem_mem _
  calc (reshapeRows target (labels.map fun l => centers.getD l (0, 0, 0))).flatten.toFinset.card
      ≤ centers.toFinset.card := by
        apply Finset.card_le_card
        intro x hx
        rw [List.mem_toFinset] at *
        exact hsub hx
    _ ≤ centers.length := List.toFinset_card_le _

/-- C4: whenever the k-means stage succeeds for a cluster count K ≥ 1, the
quantized image it reconstructs — every pixel replaced by its label's 8-bit
centroid — contains at most K distinct color values. -/
theorem quantized_has_at_most_k_colors (target smoothed : Im) (rng K attempts seed : Nat)
    (res : Frac × List Nat × List FPt) (hK : 1 ≤ K)
    (h : kmeansStage rng smoothed K attempts seed = Except.ok res) :
    distinctColors (reconstructIm target res.2.1 (centersU8 res.2.2)) ≤ K := by
  unfold kmeansStage at h
  obtain ⟨hk1, hk2, hlen, hlab⟩ := cv2kmeans_ok_inv _ _ _ _ _ _ _ h
  have hcs : res.2.2 ≠ [] := by
    intro hc
    rw [hc] at hlen
    simp at hlen
    omega
  have hlabels : ∀ l ∈ res.2.1, l < (centersU8 res.2.2).length := by
    intro l hl
    rw [hlab] at hl
    unfold assignAll at hl
    rw [List.mem_map] at hl
    obtain ⟨p, _, rfl⟩ := hl
    simpa [centersU8] using nearestIdx_lt res.2.2 p hcs
  have hle := reconstruct_distinct_le target res.2.1 (centersU8 res.2.2) hlabels
  simpa [centersU8, hlen] using hle

set_option maxRecDepth 100000 in
theorem quantized_has_at_most_k_colors_witness :
    (1 ≤ 1 ∧ kmeansStage 0 [[(5, 6, 7)]] 1 10 42 =
      Except.ok (0, [0], [((5 : Frac), (6 : Frac), (7 : Frac))])) ∧
    distinctColors (reconstructIm [[(5, 6, 7)]] [0]
      (centersU8 [((5 : Frac), (6 : Frac), (7 : Frac))])) ≤ 1 :=
  ⟨⟨by decide, by decide⟩,
   quantized_has_at_most_k_colors [[(5, 6, 7)]] [[(5, 6, 7)]] 0 1 10 42
     (0, [0], [((5 : Frac), (6 : Frac), (7 : Frac))]) (by decide) (by decide)⟩

theorem map_length_enumMap {α β : Type _} (g : List (List α)) (f : Nat × List α → List β)
    (hf : ∀ rr, (f rr).length = rr.2.length) :
    (g.enum.map f).map List.length = g.map List.length := by
  rw [List.map_map]
  have h1 : (List.length ∘ f) = (List.length ∘ (Prod.snd : Nat × List α → List α)) :=
    funext fun rr => hf rr
  rw [h1, ← List.map_map, List.enum_map_snd]

theorem toGray_gshape (im : Im) : gshape (toGray im) = shape im := by
  simp [toGray, gshape, shape, List.map_map, Function.comp_def]

theorem medianBlur_gshape (g : GIm) (rad : Nat) : gshape (medianBlur g rad) = gshape g :=
  map_length_enumMap g _ fun rr => by simp

theorem adaptiveThreshMean_gshape (g : GIm) (maxVal rad : Nat) (biasC : Frac) :
    gshape (adaptiveThreshMean g maxVal rad biasC) = gshape g :=
  map_length_enumMap g _ fun rr => by simp

theorem extractMask_gshape (im : Im) : gshape (extractMask im) = shape im := by
  unfold extractMask
  rw [adaptiveThreshMean_gshape, medianBlur_gshape, toGray_gshape]

theorem bilateralOnce_shape (ws wc : Nat → Frac) (rad : Nat) (im : Im) :
    shape (bilateralOnce ws wc rad im) = shape im :=
  map_length_enumMap im _ fun rr => by simp

theorem smoothStage_shape (ws wc : Nat → Frac) (im : Im) :
    shape (smoothStage ws wc im) = shape im := by
  unfold smoothStage
  generalize List.range 3 = l
  induction l generalizing im with
  | nil => rfl
  | cons a l2 ih =>
    rw [List.foldl_cons, ih, bilateralOnce_shape]

theorem reshapeRows_shape : ∀ (rows : List (List Px)) (flat : List Px),
    (rows.map List.length).sum ≤ flat.length →
    (reshapeRows rows flat).map List.length = rows.map List.length := by
  intro rows
  induction rows with
  | nil => intro flat h; rfl
  | cons row rest ih =>
    intro flat h
    simp only [List.map_cons, List.sum_cons] at h
    rw [reshapeRows]
    simp only [List.map_cons, List.cons.injEq]
    constructor
    · rw [List.length_take]
      exact min_eq_left (by omega)
    · apply ih
      rw [List.length_drop]
      omega

theorem reconstructIm_shape (target : Im) (labels : List Nat) (centers : List Px)
    (h : labels.length = (shape target).sum) :
    shape (reconstructIm target labels centers) = shape target := by
  unfold reconstructIm
  apply reshapeRows_shape
  rw [List.length_map, h]
  exact le_of_eq rfl

theorem bitwiseAndMasked_shape : ∀ (q : Im) (m : GIm), shape q = gshape m →
    shape (bitwiseAndMasked q m) = shape q := by
  intro q
  induction q with
  | nil => intro m h; rfl
  | cons row rest ih =>
    intro m h
    cases m with
    | nil => simp [shape, gshape] at h
    | cons mrow mrest =>
      simp only [shape, gshape, List.map_cons, List.cons.injEq] at h
      simp only [bitwiseAndMasked, List.zip_cons_cons, List.map_cons, shape,
        List.cons.injEq]
      constructor
      · rw [List.length_map, List.length_zip]
        exact min_eq_left (le_of_eq h.1)
      · exact ih mrest h.2

/-- C6: shape preservation — the smoother's output has identical row-length
profile (hence H×W) to its input, the edge mask has identical profile to the
(possibly resized) original it is extracted from, the quantizer's
reconstruction has identical profile to its target image whenever the label
list covers its pixels, and the compositor's output has identical profile to
the quantized image it merges; so every image of one run after the resize
step shares the same H×W. -/
theorem pipeline_shape_preservation :
    (∀ (ws wc : Nat → Frac) (im : Im), shape (smoothStage ws wc im) = shape im) ∧
    (∀ im : Im, gshape (extractMask im) = shape im) ∧
    (∀ (target : Im) (labels : List Nat) (centers : List Px),
      labels.length = (shape target).sum →
      shape (reconstructIm target labels centers) = shape target) ∧
    (∀ (q : Im) (m : GIm), shape q = gshape m →
      shape (bitwiseAndMasked q m) = shape q) :=
  ⟨smoothStage_shape, extractMask_gshape, reconstructIm_shape, bitwiseAndMasked_shape⟩

theorem pipeline_shape_preservation_witness :
    ([0].length = (shape [[(1, 2, 3)]]).sum ∧
      shape (reconstructIm [[(1, 2, 3)]] [0] [(4, 5, 6)]) = shape [[(1, 2, 3)]]) ∧
    (shape [[(1, 2, 3)]] = gshape [[255]] ∧
      shape (bitwiseAndMasked [[(1, 2, 3)]] [[255]]) = shape [[(1, 2, 3)]]) :=
  ⟨⟨by decide, pipeline_shape_preservation.2.2.1 [[(1, 2, 3)]] [0] [(4, 5, 6)] (by decide)⟩,
   ⟨by decide, pipeline_shape_preservation.2.2.2 [[(1, 2, 3)]] [[255]] (by decide)⟩⟩

theorem resizeArea_shape (im : Im) (newW newH : Nat) :
    shape (resizeArea im newW newH) = List.replicate newH newW := by
  unfold resizeArea shape
  rw [List.map_map]
  apply List.eq_replicate_iff.mpr
  constructor
  · simp
  · intro b hb
    rw [List.mem_map] at hb
    obtain ⟨r, _, rfl⟩ := hb
    simp

/-- C8: the resize boundary — when the longer dimension of the decoded image
is within max_dim no resize happens and the image passes through unchanged;
when it exceeds max_dim the image is replaced by the area-averaging downscale
to (int(w*scale), int(h*scale)), the longer dimension landing exactly on
max_dim (proportional scaling, floor applied to the shorter side), the result
being a rectangular newH×newW grid, and in the pipeline's trace the resize
stage completes before any smoothing pass. -/
theorem resize_policy (im : Im) (maxDim : Nat) :
    (max (imH im) (imW im) ≤ maxDim → loadResize im maxDim = im) ∧
    (maxDim < max (imH im) (imW im) →
      loadResize im maxDim =
        resizeArea im (imW im * maxDim / max (imH im) (imW im))
          (imH im * maxDim / max (imH im) (imW im)) ∧
      shape (loadResize im maxDim) =
        List.replicate (imH im * maxDim / max (imH im) (imW im))
          (imW im * maxDim / max (imH im) (imW im)) ∧
      (imH im ≤ imW im → imW im * maxDim / max (imH im) (imW im) = maxDim) ∧
      (imW im ≤ imH im → imH im * maxDim / max (imH im) (imW im) = maxDim) ∧
      ∀ (ws wc : Nat → Frac) (K attempts seed rng : Nat), ∃ t2,
        (cartoonize ws wc (some im) K maxDim attempts seed rng).1 =
          [Stage.load, Stage.resize, Stage.smoothPass, Stage.smoothPass,
            Stage.smoothPass] ++ t2) := by
  constructor
  · intro h
    unfold loadResize
    exact if_neg (Nat.not_lt.2 h)
  · intro h
    have hres : loadResize im maxDim =
        resizeArea im (imW im * maxDim / max (imH im) (imW im))
          (imH im * maxDim / max (imH im) (imW im)) := by
      unfold loadResize
      exact if_pos h
    refine ⟨hres, ?_, ?_, ?_, ?_⟩
    · rw [hres, resizeArea_shape]
    · intro hw
      rw [Nat.max_eq_right hw]
      exact Nat.mul_div_cancel_left maxDim (Nat.lt_of_le_of_lt (Nat.zero_le _)
        (by rw [Nat.max_eq_right hw] at h; exact h))
    · intro hh
      rw [Nat.max_eq_left hh]
      exact Nat.mul_div_cancel_left maxDim (Nat.lt_of_le_of_lt (Nat.zero_le _)
        (by rw [Nat.max_eq_left hh] at h; exact h))
    · intro ws wc K attempts seed rng
      cases hk : kmeansStage rng (smoothStage ws wc (loadResize im maxDim)) K attempts seed with
      | error e =>
        exact ⟨[], by simp [cartoonize, hk, h]⟩
      | ok res =>
        exact ⟨[Stage.quantize, Stage.maskExtract, Stage.combine, Stage.convert],
          by simp [cartoonize, hk, h]⟩

theorem resize_policy_witness :
    (max (imH onePx) (imW onePx) ≤ 800 ∧ loadResize onePx 800 = onePx) ∧
    (2 < max (imH wideIm) (imW wideIm) ∧
      loadResize wideIm 2 =
        resizeArea wideIm (imW wideIm * 2 / max (imH wideIm) (imW wideIm))
          (imH wideIm * 2 / max (imH wideIm) (imW wideIm))) :=
  ⟨⟨by decide, (resize_policy onePx 800).1 (by decide)⟩,
   ⟨by decide, ((resize_policy wideIm 2).2 (by decide)).1⟩⟩

set_option maxRecDepth 400000 in
set_option maxHeartbeats 1000000 in
/-- C9 counterexample: on the 4×4 step image the claim's mask sentence fails —
there is no boundary column b (column 1 or 2, either side of the color seam)
such that exactly the pixels of column b are marked "line": the mask sample at
row 0, column 0 — a non-boundary column under every reading — is 0 (line),
because the 15-pixel averaging block dwarfs the 4-pixel image and the local
mean threshold classifies the whole darker half as line. -/
theorem step_image_mask_not_boundary_only_cex :
    ¬ ∃ b, (b = 1 ∨ b = 2) ∧
      ∀ r c, r < 4 → c < 4 → (gAt (extractMask stepIm) r c = 0 ↔ c = b) := by
  rintro ⟨b, hb, hall⟩
  have h00 : gAt (extractMask stepIm) 0 0 = 0 := by decide
  have hb0 := (hall 0 0 (by omega) (by omega)).1 h00
  rcases hb with h1 | h2 <;> omega

set_option maxRecDepth 400000 in
set_option maxHeartbeats 4000000 in
/-- C9 amended: for the 4×4 image whose left half is (10,10,10) and right
half (250,250,250), k-means applied directly to the image's pixels (the
unsmoothed two-valued data) with K = 2, the script's attempts = 10 and seed
42 recovers exactly the two original colors as the centroid set with
compactness 0 and assigns each half perfectly, so the quantized
reconstruction is the image itself; the extracted mask marks the entire left
(darker) half — not merely a boundary column — as line and the whole right
half as background; the composite of the quantized image with this mask is
therefore black on the left half and keeps the quantized color (250,250,250)
on the right half. -/
theorem step_image_scenario_amended :
    cv2kmeans (imToPts stepIm) 2 10 1 10 42 =
      Except.ok (0, [1, 1, 0, 0, 1, 1, 0, 0, 1, 1, 0, 0, 1, 1, 0, 0],
        [((250 : Frac), (250 : Frac), (250 : Frac)),
         ((10 : Frac), (10 : Frac), (10 : Frac))]) ∧
    reconstructIm stepIm [1, 1, 0, 0, 1, 1, 0, 0, 1, 1, 0, 0, 1, 1, 0, 0]
      (centersU8 [((250 : Frac), (250 : Frac), (250 : Frac)),
        ((10 : Frac), (10 : Frac), (10 : Frac))]) = stepIm ∧
    extractMask stepIm =
      [[0, 0, 255, 255], [0, 0, 255, 255], [0, 0, 255, 255], [0, 0, 255, 255]] ∧
    bitwiseAndMasked stepIm (extractMask stepIm) =
      [[(0, 0, 0), (0, 0, 0), (250, 250, 250), (250, 250, 250)],
       [(0, 0, 0), (0, 0, 0), (250, 250, 250), (250, 250, 250)],
       [(0, 0, 0), (0, 0, 0), (250, 250, 250), (250, 250, 250)],
       [(0, 0, 0), (0, 0, 0), (250, 250, 250), (250, 250, 250)]] :=
  ⟨by decide, by decide, by decide, by decide⟩

/-- C10: on every successful call the first returned image is exactly the
loaded (and possibly resized) input with its channel order reversed — it
depends on nothing computed by the smoothing, quantization, masking or
compositing stages, smoothing having operated on a copy — and the second
returned image is the masked composite with its channel order reversed. -/
theorem outputs_are_channel_reversed (ws wc : Nat → Frac) (img0 : Im)
    (K maxDim attempts seed rng : Nat) (t : List Stage) (o c : Im)
    (h : cartoonize ws wc (some img0) K maxDim attempts seed rng = (t, Except.ok (o, c))) :
    o = bgr2rgb (loadResize img0 maxDim) ∧
    ∃ res, kmeansStage rng (smoothStage ws wc (loadResize img0 maxDim)) K attempts seed =
        Except.ok res ∧
      c = bgr2rgb (bitwiseAndMasked
        (reconstructIm (loadResize img0 maxDim) res.2.1 (centersU8 res.2.2))
        (extractMask (loadResize img0 maxDim))) := by
  simp only [cartoonize] at h
  cases hk : kmeansStage rng (smoothStage ws wc (loadResize img0 maxDim)) K attempts seed with
  | error e =>
    rw [hk] at h
    simp at h
  | ok res =>
    rw [hk] at h
    have h2 := congrArg Prod.snd h
    simp only [] at h2
    injection h2 with h3
    have ho := congrArg Prod.fst h3
    have hc := congrArg Prod.snd h3
    exact ⟨ho.symm, res, rfl, hc.symm⟩

set_option synthInstance.maxSize 512 in
set_option maxRecDepth 400000 in
set_option maxHeartbeats 8000000 in
theorem outputs_are_channel_reversed_witness :
    cartoonize unitKernel unitKernel (some onePx) 1 800 1 42 0 =
      ([Stage.load, Stage.smoothPass, Stage.smoothPass, Stage.smoothPass,
        Stage.quantize, Stage.maskExtract, Stage.combine, Stage.convert],
       Except.ok (onePx, onePx)) ∧
    onePx = bgr2rgb (loadResize onePx 800) := by
  have h : cartoonize unitKernel unitKernel (some onePx) 1 800 1 42 0 =
      ([Stage.load, Stage.smoothPass, Stage.smoothPass, Stage.smoothPass,
        Stage.quantize, Stage.maskExtract, Stage.combine, Stage.convert],
       Except.ok (onePx, onePx)) := by decide
  exact ⟨h, (outputs_are_channel_reversed unitKernel unitKernel onePx 1 800 1 42 0 _ onePx
    onePx h).1⟩

end Cartoonize
